import Mathlib

/-!
Verification of the shelf single-page book-shelf manager (src/index.tsx).

Strings are embedded as `List Char`.  The remote store (supabase) is not part
of the source tree; where its behaviour matters it is modelled from the spec
(section 6: `select all ordered by book_order asc`, `insert`, `update`).
Store failures are injected through explicit Boolean/Option parameters, and
the per-record `update` calls issued by the drag handler are returned as an
explicit list of `(id, book_order)` pairs instead of being executed.
-/

namespace Shelf

/-- Book record, from `type Book` in src/index.tsx. -/
structure Book where
  id : Nat
  url : List Char
  comment : List Char
  book_order : Nat
deriving Repr, DecidableEq

/-- Drag-end event: `active.id` and the optional drop target `over.id`
(`over` is `null` when the drag ends outside any droppable). -/
structure DragEndEvent where
  activeId : Nat
  overId : Option Nat
deriving Repr, DecidableEq

/-- dnd-kit `arrayMove`: copy the array, splice the element out of index `i`
and splice it back in at index `j`.  (The handler only calls it with indices
of elements actually present in the list.) -/
def arrayMove {α : Type} (l : List α) (i j : Nat) : List α :=
  match l[i]? with
  | none => l
  | some x => (l.eraseIdx i).insertIdx j x

/-- The `handleDragEnd` callback of src/index.tsx.  Returns the new local
list together with the list of store updates it issues, one
`(id, book_order)` pair per record of the new list, in order. -/
def handleDragEnd (ev : DragEndEvent) (books : List Book) : List Book × List (Nat × Nat) :=
  match ev.overId with
  | none => (books, [])
  | some overId =>
    if ev.activeId = overId then (books, [])
    else
      let oldIndex := books.findIdx (fun b => b.id == ev.activeId)
      let newIndex := books.findIdx (fun b => b.id == overId)
      let newBooks := arrayMove books oldIndex newIndex
      (newBooks, newBooks.enum.map (fun p => (p.2.id, p.1)))

/-- The three-book list of the spec scenario:
`[{id:1,order:0},{id:2,order:1},{id:3,order:2}]`. -/
def books3 : List Book :=
  [⟨1, [], [], 0⟩, ⟨2, [], [], 1⟩, ⟨3, [], [], 2⟩]

/-- C4: a drag that ends on the same record (`active.id === over.id`) is a
no-op: the local list is returned unchanged and no store update is issued. -/
theorem reorder_same_source_noop (id : Nat) (books : List Book) :
    handleDragEnd ⟨id, some id⟩ books = (books, []) := by
  simp [handleDragEnd]

/-- C10: a drag-end event with no drop target (`over` null) leaves the local
list unchanged and issues no store writes. -/
theorem dragEnd_no_target_noop (id : Nat) (books : List Book) :
    handleDragEnd ⟨id, none⟩ books = (books, []) := rfl

/-- C1 counterexample: on the scenario list, `Reorder(0 -> 2)` (drag of the
record with id 1 dropped on the record with id 3) does NOT yield
`[{id:2,order:0},{id:3,order:1},{id:1,order:2}]`: the local records keep
their old `book_order` fields, giving orders `[1, 2, 0]`. -/
theorem reorder_local_order_counterexample :
    (handleDragEnd ⟨1, some 3⟩ books3).1 ≠
      [⟨2, [], [], 0⟩, ⟨3, [], [], 1⟩, ⟨1, [], [], 2⟩] ∧
    (handleDragEnd ⟨1, some 3⟩ books3).1 =
      [⟨2, [], [], 1⟩, ⟨3, [], [], 2⟩, ⟨1, [], [], 0⟩] := by decide

/-- Character class `[A-Z0-9]` of the identifier regex. -/
def isAsinChar (c : Char) : Bool :=
  ('A' ≤ c && c ≤ 'Z') || ('0' ≤ c && c ≤ '9')

/-- Attempt of the anchored pattern `\/([A-Z0-9]{10})(?:[/?]|$)` at the head
of the string, returning the captured group on success. -/
def matchHere : List Char → Option (List Char)
  | [] => none
  | c :: rest =>
    if c = '/' then
      if (rest.take 10).length == 10 && (rest.take 10).all isAsinChar then
        match rest.drop 10 with
        | [] => some (rest.take 10)
        | d :: _ => if d = '/' || d = '?' then some (rest.take 10) else none
      else none
    else none

/-- Left-to-right scan of `url.match(...)` with a non-global regex: the
attempt at the leftmost succeeding start position wins. -/
def scanMatch : List Char → Option (List Char)
  | [] => none
  | c :: rest =>
    match matchHere (c :: rest) with
    | some seg => some seg
    | none => scanMatch rest

/-- The `extractASIN` function of src/index.tsx.  `none` stands for a
missing (`undefined`) argument; the JS empty string is also falsy, hence
the `isEmpty` test for the guard `if (!url) return null`. -/
def extractASIN : Option (List Char) → Option (List Char)
  | none => none
  | some url => if url.isEmpty then none else scanMatch url

/-- Spec wording: position `i` of `s` starts a match when it holds `/`, the
ten following positions hold uppercase letters or digits, and the position
after those holds `/` or `?` or is the end of the string. -/
def specMatchAt (s : List Char) (i : Nat) : Bool :=
  (s[i]? == some '/') &&
  (List.range 10).all (fun k => ((s[i + 1 + k]?).map isAsinChar).getD false) &&
  (match s[i + 11]? with
   | none => true
   | some d => d == '/' || d == '?')

/-- The ten-character segment following position `i`. -/
def specSegment (s : List Char) (i : Nat) : List Char :=
  (s.drop (i + 1)).take 10

/-- Spec wording of `extractIdentifier`: the segment at the first (leftmost)
matching position; absent when the URL is missing or no position matches. -/
def specExtract : Option (List Char) → Option (List Char)
  | none => none
  | some s => ((List.range s.length).find? (specMatchAt s)).map (specSegment s)

theorem all_range_congr {n : Nat} {p q : Nat → Bool} (h : ∀ k, k < n → p k = q k) :
    (List.range n).all p = (List.range n).all q := by
  rw [Bool.eq_iff_iff]
  simp only [List.all_eq_true, List.mem_range]
  exact ⟨fun hp i hi => (h i hi) ▸ hp i hi, fun hq i hi => (h i hi).symm ▸ hq i hi⟩

theorem take_all_eq_range (n : Nat) (l : List Char) :
    ((l.take n).length == n && (l.take n).all isAsinChar) =
      (List.range n).all (fun k => ((l[k]?).map isAsinChar).getD false) := by
  induction n generalizing l with
  | zero => simp
  | succ n ih =>
    cases l with
    | nil => simp [List.range_succ_eq_map]
    | cons a t =>
      simp only [List.take_succ_cons, List.length_cons, List.all_cons,
        List.range_succ_eq_map, List.all_map, Function.comp_def,
        List.getElem?_cons_zero, List.getElem?_cons_succ, Option.map_some',
        Option.getD_some]
      have hlen : ((t.take n).length + 1 == n + 1) = ((t.take n).length == n) := by
        rw [Bool.eq_iff_iff]; simp
      rw [hlen, Bool.and_left_comm, ih t]

theorem matchHere_eq (s : List Char) :
    matchHere s = if specMatchAt s 0 then some (specSegment s 0) else none := by
  cases s with
  | nil => rfl
  | cons c t =>
    by_cases hc : c = '/'
    · subst hc
      have hall : ((t.take 10).length == 10 && (t.take 10).all isAsinChar)
          = (List.range 10).all
              (fun k => ((('/' :: t)[0 + 1 + k]?).map isAsinChar).getD false) := by
        rw [take_all_eq_range]
        apply all_range_congr
        intro k _
        have he : 0 + 1 + k = k + 1 := by omega
        rw [he, List.getElem?_cons_succ]
      have hseg : specSegment ('/' :: t) 0 = t.take 10 := rfl
      have h11 : ('/' :: t)[0 + 11]? = t[10]? := by
        rw [show 0 + 11 = 10 + 1 from rfl, List.getElem?_cons_succ]
      by_cases hlen : ((t.take 10).length == 10 && (t.take 10).all isAsinChar) = true
      · cases hdrop : t.drop 10 with
        | nil =>
          have h10 : t[10]? = none := by
            have := List.getElem?_drop t 10 0
            rw [hdrop] at this
            simpa using this.symm
          have hspec : specMatchAt ('/' :: t) 0 = true := by
            simp only [specMatchAt, List.getElem?_cons_zero, h11, h10, ← hall, hlen]
            rfl
          simp only [matchHere, if_pos rfl, if_pos hlen, hdrop, hspec, if_pos rfl, hseg]
        | cons d u =>
          have h10 : t[10]? = some d := by
            have := List.getElem?_drop t 10 0
            rw [hdrop] at this
            simpa using this.symm
          by_cases hd : (d = '/' ∨ d = '?')
          · have hdb : (d == '/' || d == '?') = true := by
              rcases hd with h | h <;> simp [h]
            have hspec : specMatchAt ('/' :: t) 0 = true := by
              simp only [specMatchAt, List.getElem?_cons_zero, h11, h10, ← hall, hlen]
              simpa using hdb
            simp only [matchHere, if_pos rfl, if_pos hlen, hdrop, hspec, if_pos rfl, hseg]
            have hdb' : (d = '/' || d = '?') = true := by
              rcases hd with h | h <;> simp [h]
            rw [if_pos hdb']
          · have hdb : (d == '/' || d == '?') = false := by
              push_neg at hd
              simp [hd.1, hd.2]
            have hspec : specMatchAt ('/' :: t) 0 = false := by
              simp only [specMatchAt, List.getElem?_cons_zero, h11, h10]
              simp [hdb]
            simp only [matchHere, if_pos rfl, if_pos hlen, hdrop, hspec]
            have hcond : ¬ ((d = '/' || d = '?') = true) := by
              simpa using hd
            rw [if_neg hcond]
            simp
      · have hspec : specMatchAt ('/' :: t) 0 = false := by
          rw [Bool.eq_false_iff]
          intro hcon
          apply hlen
          simp only [specMatchAt, Bool.and_eq_true] at hcon
          rw [hall]
          exact hcon.1.2
        have hlen' : ¬ ((t.take 10).length == 10 && (t.take 10).all isAsinChar) = true := hlen
        simp only [matchHere, if_pos rfl, if_neg hlen', hspec]
        simp
    · have hspec : specMatchAt (c :: t) 0 = false := by
        simp only [specMatchAt, List.getElem?_cons_zero]
        have : (some c == some '/') = false := by
          simp [hc]
        simp [this]
      simp only [matchHere, if_neg hc, hspec]
      simp

theorem specMatchAt_cons_succ (c : Char) (t : List Char) (i : Nat) :
    specMatchAt (c :: t) (i + 1) = specMatchAt t i := by
  simp only [specMatchAt]
  congr 1
  · congr 1
    · rw [List.getElem?_cons_succ]
    · apply all_range_congr
      intro k _
      have he : i + 1 + 1 + k = (i + 1 + k) + 1 := by omega
      rw [he, List.getElem?_cons_succ]
  · have he : i + 1 + 11 = (i + 11) + 1 := by omega
    rw [he, List.getElem?_cons_succ]

theorem specSegment_cons_succ (c : Char) (t : List Char) (i : Nat) :
    specSegment (c :: t) (i + 1) = specSegment t i := rfl

theorem find?_range_succ (n : Nat) (p : Nat → Bool) :
    (List.range (n + 1)).find? p =
      if p 0 then some 0
      else ((List.range n).find? (p ∘ Nat.succ)).map Nat.succ := by
  rw [List.range_succ_eq_map]
  by_cases h : p 0 = true
  · rw [List.find?_cons_of_pos _ h, if_pos h]
  · rw [List.find?_cons_of_neg _ h, if_neg h, List.find?_map]

theorem scanMatch_eq (s : List Char) :
    scanMatch s = ((List.range s.length).find? (specMatchAt s)).map (specSegment s) := by
  induction s with
  | nil => rfl
  | cons c t ih =>
    have hpred : (specMatchAt (c :: t)) ∘ Nat.succ = specMatchAt t := by
      funext i
      exact specMatchAt_cons_succ c t i
    have hseg : (specSegment (c :: t)) ∘ Nat.succ = specSegment t := by
      funext i
      exact specSegment_cons_succ c t i
    simp only [scanMatch, matchHere_eq, List.length_cons, find?_range_succ, hpred]
    by_cases h : specMatchAt (c :: t) 0 = true
    · rw [if_pos h, if_pos h]
      simp
    · rw [if_neg h, if_neg h]
      simp only [Option.map_map, hseg, ih]

/-- C2: `extractASIN` agrees everywhere with the specified extraction: on a
missing URL it is absent, and on a present URL it returns exactly the
segment at the first position matching the spec's pattern (ten uppercase
letters or digits immediately preceded by `/` and followed by `/`, `?`, or
the end of the string), absent when no position matches.  Totality of the
Lean function reflects that the source never throws. -/
theorem extractASIN_first_match_spec (url : Option (List Char)) :
    extractASIN url = specExtract url := by
  cases url with
  | none => rfl
  | some s =>
    cases s with
    | nil => rfl
    | cons c t =>
      simp only [extractASIN, specExtract, List.isEmpty_cons]
      exact scanMatch_eq (c :: t)

/-- Local React state of the `Home` component: the `books`, `newUrl` and
`successMessage` `useState` hooks (`showAll` is kept separately). -/
structure LocalState where
  books : List Book
  newUrl : List Char
  successMessage : List Char
deriving Repr, DecidableEq

/-- Initial hook values: empty list, empty input, empty message. -/
def initialState : LocalState := ⟨[], [], []⟩

/-- Modelled from the spec: the external persisted store (the supabase
`books` table, not part of the source tree) is a table of records together
with the next store-assigned id. -/
structure StoreState where
  rows : List Book
  nextId : Nat
deriving Repr, DecidableEq

/-- Modelled from the spec: `insert(record) -> assigned id` appends a row
and assigns it the next id; `comment` is not supplied by the client. -/
def storeInsert (st : StoreState) (url : List Char) (ord : Nat) : StoreState :=
  { rows := st.rows ++ [{ id := st.nextId, url := url, comment := [], book_order := ord }],
    nextId := st.nextId + 1 }

/-- Comparison used by the store's `order('book_order', ascending)`. -/
def bookOrderLe (a b : Book) : Bool := a.book_order ≤ b.book_order

/-- Modelled from the spec: `select all ordered by book_order asc`. -/
def storeSelectOrdered (st : StoreState) : List Book :=
  st.rows.mergeSort bookOrderLe

/-- The `fetchBooks` effect of src/index.tsx: `result` is the store's reply,
`none` when the read failed (`error` set).  On failure nothing happens; on
success the local list is replaced wholesale. -/
def fetchBooks (result : Option (List Book)) (s : LocalState) : LocalState :=
  match result with
  | some data => { s with books := data }
  | none => s

/-- Whitespace stripped by JS `String.prototype.trim`. -/
def jsWhitespace (c : Char) : Bool :=
  [' ', '\t', '\n', '\r', '\x0b', '\x0c', '\u00A0', '\u1680', '\u2000', '\u2001',
   '\u2002', '\u2003', '\u2004', '\u2005', '\u2006', '\u2007', '\u2008', '\u2009',
   '\u200A', '\u2028', '\u2029', '\u202F', '\u205F', '\u3000', '\uFEFF'].contains c

/-- JS `String.prototype.trim`: drop leading and trailing whitespace. -/
def jsTrim (s : List Char) : List Char :=
  ((s.dropWhile jsWhitespace).reverse.dropWhile jsWhitespace).reverse

/-- Success message set after a confirmed append (`'追加成功！'`). -/
def appendSuccessMessage : List Char := "追加成功！".data

/-- The `addBook` handler of src/index.tsx.  `insertError` injects a store
write failure (`error` non-null, row not inserted); `selectError` injects a
failure of the reload query after a confirmed insert, in which case the
code falls back to `data || []`.  Returns the store state and local state
after the handler runs. -/
def addBook (insertError : Bool) (selectError : Bool) (st : StoreState) (s : LocalState) :
    StoreState × LocalState :=
  if (jsTrim s.newUrl).isEmpty then (st, s)
  else if insertError then (st, s)
  else
    let st' := storeInsert st s.newUrl s.books.length
    let data : Option (List Book) := if selectError then none else some (storeSelectOrdered st')
    (st', { books := data.getD [], newUrl := [], successMessage := appendSuccessMessage })

/-- Initial value of the `showAll` hook. -/
def initialShowAll : Bool := false

/-- The rendered sublist: `showAll ? books : books.slice(0, 5)`. -/
def visibleBooks (showAll : Bool) (books : List Book) : List Book :=
  if showAll then books else books.take 5

/-- C6: when the store reports a write error on append, `addBook` is silent
and atomic: store rows, local list, input field and message are all exactly
as before, for every injected reload outcome. -/
theorem addBook_write_error_silent (selectError : Bool) (st : StoreState) (s : LocalState) :
    addBook true selectError st s = (st, s) := by
  unfold addBook
  split
  · rfl
  · rfl

/-- C8: the visibility toggle has exactly the two states of its Boolean:
collapsed (`false`) renders the first five records of the current order,
expanded (`true`) renders the whole list, and the initial state is
collapsed. -/
theorem visibility_toggle_spec :
    initialShowAll = false ∧
    (∀ books : List Book, visibleBooks false books = books.take 5) ∧
    (∀ books : List Book, visibleBooks true books = books) :=
  ⟨rfl, fun _ => rfl, fun _ => rfl⟩

theorem jsTrim_all_whitespace {s : List Char} (h : s.all jsWhitespace = true) :
    jsTrim s = [] := by
  have h1 : s.dropWhile jsWhitespace = [] := by
    rw [List.dropWhile_eq_nil_iff]
    intro x hx
    exact (List.all_eq_true.mp h) x hx
  simp [jsTrim, h1]

/-- C9: an input that is empty or all whitespace makes `addBook` a complete
no-op: the store receives no insert and the local state (list, input,
message) is unchanged, whatever failures the store would have produced. -/
theorem addBook_whitespace_noop (insertError selectError : Bool)
    (st : StoreState) (s : LocalState) (h : s.newUrl.all jsWhitespace = true) :
    addBook insertError selectError st s = (st, s) := by
  unfold addBook
  rw [if_pos (by simp [jsTrim_all_whitespace h])]

theorem addBook_whitespace_noop_witness :
    ((' ' :: '\t' :: []).all jsWhitespace = true) ∧
    addBook false false ⟨[], 1⟩ ⟨[], [' ', '\t'], []⟩ = (⟨[], 1⟩, ⟨[], [' ', '\t'], []⟩) :=
  ⟨by decide, addBook_whitespace_noop false false ⟨[], 1⟩ ⟨[], [' ', '\t'], []⟩ (by decide)⟩

/-- Book used by the C3 counterexample and witnesses. -/
def bk1 : Book := ⟨1, [], [], 0⟩

/-- Store holding exactly `bk1`. -/
def st1 : StoreState := ⟨[bk1], 2⟩

/-- Local state in sync with `st1`, with a pending non-empty URL. -/
def s1 : LocalState := ⟨[bk1], ['a'], []⟩

/-- C3 counterexample: when the insert succeeds but the reload after it
fails, `setBooks(data || [])` resets the local list to `[]`, so an append
CAN decrease the local list length (here from 1 to 0). -/
theorem append_reload_failure_shrinks :
    (addBook false true st1 s1).2.books.length < s1.books.length := by decide

/-- C3 (amended): an append with a non-empty trimmed URL and a successful
insert inserts into the store a record with `book_order` equal to the local
list length before the insert, and — provided the reload after the insert
succeeds and the store held at least as many rows as the local list — the
local list length strictly increases; if the reload fails the local list is
reset to `[]`. -/
theorem addBook_success_appends (st : StoreState) (s : LocalState)
    (hurl : (jsTrim s.newUrl).isEmpty = false)
    (hsync : s.books.length ≤ st.rows.length) :
    ((addBook false false st s).1.rows.getLast? =
      some { id := st.nextId, url := s.newUrl, comment := [], book_order := s.books.length }) ∧
    s.books.length < (addBook false false st s).2.books.length := by
  unfold addBook
  rw [if_neg (by simp [hurl]), if_neg (by simp)]
  constructor
  · simp [storeInsert, List.getLast?_concat]
  · simp [storeSelectOrdered, storeInsert]
    omega

theorem addBook_success_appends_witness :
    ((jsTrim s1.newUrl).isEmpty = false) ∧ (s1.books.length ≤ st1.rows.length) ∧
    (((addBook false false st1 s1).1.rows.getLast? =
        some { id := st1.nextId, url := s1.newUrl, comment := [], book_order := s1.books.length }) ∧
      s1.books.length < (addBook false false st1 s1).2.books.length) :=
  ⟨by decide, by decide, addBook_success_appends st1 s1 (by decide) (by decide)⟩

/-- C7: if the initial read fails the local list stays empty (the initial
state is untouched; the single fetch is not retried); if it succeeds the
local state's list is replaced wholesale by the store's reply, which is a
permutation of the rows sorted by `book_order` ascending. -/
theorem load_failure_keeps_empty_success_replaces :
    (∀ s, fetchBooks none s = s) ∧
    (fetchBooks none initialState).books = [] ∧
    (∀ st s, (fetchBooks (some (storeSelectOrdered st)) s).books = storeSelectOrdered st ∧
      (fetchBooks (some (storeSelectOrdered st)) s).books.Perm st.rows ∧
      List.Pairwise (fun a b : Book => a.book_order ≤ b.book_order)
        ((fetchBooks (some (storeSelectOrdered st)) s).books)) := by
  refine ⟨fun s => rfl, rfl, fun st s => ⟨rfl, ?_, ?_⟩⟩
  · exact List.mergeSort_perm st.rows bookOrderLe
  · have h := @List.sorted_mergeSort Book bookOrderLe
      (fun a b c hab hbc => by
        simp only [bookOrderLe, decide_eq_true_eq] at hab hbc ⊢
        omega)
      (fun a b => by
        simp only [bookOrderLe]
        by_cases h : a.book_order ≤ b.book_order
        · simp [h]
        · simp [h]
          omega)
      st.rows
    exact h.imp (fun hab => by simpa [bookOrderLe] using hab)

theorem insertIdx_getElem? {α : Type} (x : α) (l : List α) (n : Nat) (hn : n ≤ l.length)
    (k : Nat) :
    (l.insertIdx n x)[k]? =
      if k < n then l[k]? else if k = n then some x else l[k - 1]? := by
  induction l generalizing n k with
  | nil =>
    have hn0 : n = 0 := Nat.le_zero.mp hn
    subst hn0
    cases k with
    | zero => rfl
    | succ k => simp
  | cons a t ih =>
    cases n with
    | zero =>
      cases k with
      | zero => rfl
      | succ k => simp
    | succ n =>
      cases k with
      | zero => simp
      | succ k =>
        have hn' : n ≤ t.length := by simpa using hn
        rw [List.insertIdx_succ_cons, List.getElem?_cons_succ, ih n hn' k]
        by_cases h1 : k < n
        · rw [if_pos h1, if_pos (by omega), List.getElem?_cons_succ]
        · rw [if_neg h1]
          by_cases h2 : k = n
          · rw [if_pos h2, if_neg (by omega), if_pos (by omega)]
          · rw [if_neg h2, if_neg (by omega), if_neg (by omega)]
            have hk : k + 1 - 1 = (k - 1) + 1 := by omega
            rw [hk, List.getElem?_cons_succ]

theorem insertIdx_perm_cons {α : Type} (x : α) (l : List α) (n : Nat) (hn : n ≤ l.length) :
    (l.insertIdx n x).Perm (x :: l) := by
  induction l generalizing n with
  | nil =>
    have hn0 : n = 0 := Nat.le_zero.mp hn
    subst hn0
    exact List.Perm.refl _
  | cons a t ih =>
    cases n with
    | zero => exact List.Perm.refl _
    | succ n =>
      have hn' : n ≤ t.length := by simpa using hn
      rw [List.insertIdx_succ_cons]
      exact ((ih n hn').cons a).trans (List.Perm.swap x a t)

theorem cons_eraseIdx_perm {α : Type} :
    ∀ (l : List α) (i : Nat) (x : α), l[i]? = some x → (x :: l.eraseIdx i).Perm l
  | [], i, x, h => by simp at h
  | a :: t, 0, x, h => by
    have hax : a = x := by simpa using h
    subst hax
    simp [List.Perm.refl]
  | a :: t, i + 1, x, h => by
    have h' : t[i]? = some x := by simpa using h
    rw [List.eraseIdx_cons_succ]
    exact (List.Perm.swap a x _).trans ((cons_eraseIdx_perm t i x h').cons a)

theorem arrayMove_perm {α : Type} (l : List α) (i j : Nat) (hi : i < l.length)
    (hj : j < l.length) : (arrayMove l i j).Perm l := by
  have hx : l[i]? = some (l.get ⟨i, hi⟩) := by simp
  unfold arrayMove
  rw [hx]
  have hj' : j ≤ (l.eraseIdx i).length := by
    rw [List.length_eraseIdx_of_lt hi]
    omega
  exact (insertIdx_perm_cons _ _ j hj').trans (cons_eraseIdx_perm l i _ hx)

theorem arrayMove_getElem? {α : Type} (l : List α) (i j k : Nat) (hi : i < l.length)
    (hj : j < l.length) :
    (arrayMove l i j)[k]? =
      if k = j then l[i]?
      else if i ≤ k ∧ k < j then l[k + 1]?
      else if j < k ∧ k ≤ i then l[k - 1]?
      else l[k]? := by
  have hx : l[i]? = some (l.get ⟨i, hi⟩) := by simp
  unfold arrayMove
  rw [hx]
  have hj' : j ≤ (l.eraseIdx i).length := by
    rw [List.length_eraseIdx_of_lt hi]
    omega
  rw [insertIdx_getElem? _ _ j hj' k]
  simp only [List.getElem?_eraseIdx, hx]
  split_ifs <;> first | rfl | (congr 1; omega)

theorem findIdx_beq_id (l : List Book) (i : Nat) (hi : i < l.length)
    (hnd : (l.map Book.id).Nodup) :
    l.findIdx (fun b => b.id == (l.get ⟨i, hi⟩).id) = i := by
  induction l generalizing i with
  | nil => simp at hi
  | cons a t ih =>
    rw [List.map_cons, List.nodup_cons] at hnd
    cases i with
    | zero => simp [List.findIdx_cons]
    | succ i =>
      have hi' : i < t.length := by simpa using hi
      have hget : (a :: t).get ⟨i + 1, hi⟩ = t.get ⟨i, hi'⟩ := rfl
      rw [hget]
      have hne : (a.id == (t.get ⟨i, hi'⟩).id) = false := by
        rw [beq_eq_false_iff_ne]
        intro hcon
        exact hnd.1 (hcon ▸ List.mem_map_of_mem Book.id (t.get_mem i hi'))
      rw [List.findIdx_cons, hne, cond_false, ih i hi' hnd.2]

theorem enum_writes_getElem? (l : List Book) (k : Nat) :
    (l.enum.map (fun p => (p.2.id, p.1)))[k]? = (l[k]?).map (fun b => (b.id, k)) := by
  rw [List.getElem?_map, List.getElem?_enum]
  cases h : l[k]? <;> simp

theorem enum_writes_map_snd (l : List Book) :
    (l.enum.map (fun p => (p.2.id, p.1))).map Prod.snd = List.range l.length := by
  rw [List.map_map]
  have hf : (Prod.snd ∘ fun p : Nat × Book => (p.2.id, p.1)) = Prod.fst := rfl
  rw [hf, List.enum_map_fst]

theorem handleDragEnd_eq (books : List Book) (src dst : Nat)
    (hs : src < books.length) (hd : dst < books.length) (hne : src ≠ dst)
    (hnd : (books.map Book.id).Nodup) :
    handleDragEnd ⟨(books.get ⟨src, hs⟩).id, some ((books.get ⟨dst, hd⟩).id)⟩ books =
      (arrayMove books src dst,
        (arrayMove books src dst).enum.map (fun p => (p.2.id, p.1))) := by
  have hidne : (books.get ⟨src, hs⟩).id ≠ (books.get ⟨dst, hd⟩).id := by
    intro hcon
    have h1 := findIdx_beq_id books src hs hnd
    have h2 := findIdx_beq_id books dst hd hnd
    rw [← hcon] at h2
    exact hne (h1.symm.trans h2)
  unfold handleDragEnd
  simp only [if_neg hidne, findIdx_beq_id books src hs hnd, findIdx_beq_id books dst hd hnd]

/-- C1 (amended): for a valid, distinct, in-bounds drag from position `src`
to position `dst` on a list with pairwise distinct ids, the resulting local
sequence is a permutation of the input with the source element moved to the
destination position, and the `book_order` values WRITTEN TO THE STORE (not
the local `book_order` fields, which keep their previous values) equal the
new positional indices, forming the dense range `[0, length)`. -/
theorem reorder_moves_source_and_writes_dense (books : List Book) (src dst : Nat)
    (hs : src < books.length) (hd : dst < books.length) (hne : src ≠ dst)
    (hnd : (books.map Book.id).Nodup) :
    (handleDragEnd ⟨(books.get ⟨src, hs⟩).id, some ((books.get ⟨dst, hd⟩).id)⟩ books).1.Perm
        books ∧
    (handleDragEnd ⟨(books.get ⟨src, hs⟩).id, some ((books.get ⟨dst, hd⟩).id)⟩ books).1[dst]? =
        books[src]? ∧
    (∀ k : Nat, (handleDragEnd ⟨(books.get ⟨src, hs⟩).id,
            some ((books.get ⟨dst, hd⟩).id)⟩ books).2[k]? =
      ((handleDragEnd ⟨(books.get ⟨src, hs⟩).id,
            some ((books.get ⟨dst, hd⟩).id)⟩ books).1[k]?).map (fun b : Book => (b.id, k))) ∧
    (handleDragEnd ⟨(books.get ⟨src, hs⟩).id,
        some ((books.get ⟨dst, hd⟩).id)⟩ books).2.map Prod.snd =
      List.range books.length := by
  rw [handleDragEnd_eq books src dst hs hd hne hnd]
  refine ⟨arrayMove_perm books src dst hs hd, ?_, ?_, ?_⟩
  · rw [arrayMove_getElem? books src dst dst hs hd, if_pos rfl]
  · intro k
    exact enum_writes_getElem? (arrayMove books src dst) k
  · rw [enum_writes_map_snd, (arrayMove_perm books src dst hs hd).length_eq]

theorem reorder_moves_witness :
    (handleDragEnd ⟨1, some 3⟩ books3).1.Perm books3 ∧
    (handleDragEnd ⟨1, some 3⟩ books3).1[2]? = books3[0]? ∧
    (handleDragEnd ⟨1, some 3⟩ books3).2.map Prod.snd = List.range 3 := by
  have h := reorder_moves_source_and_writes_dense books3 0 2 (by decide) (by decide)
    (by decide) (by decide)
  exact ⟨h.1, h.2.1, h.2.2.2⟩

/-- C5: a reorder from `src` to `dst` on a list whose `book_order` values
are dense (equal to positional index) only renumbers the records positioned
between the two indices, inclusive: every position outside
`[min src dst, max src dst]` holds the very same record as before and its
store write re-writes its previous `book_order` value, while every position
inside the interval holds a record whose written value (its new index)
differs from its previous `book_order`. -/
theorem reorder_frame_condition (books : List Book) (src dst : Nat)
    (hs : src < books.length) (hd : dst < books.length) (hne : src ≠ dst)
    (hnd : (books.map Book.id).Nodup)
    (hdense : ∀ k (hk : k < books.length), books[k].book_order = k) :
    (∀ k, (k < min src dst ∨ max src dst < k) →
      (handleDragEnd ⟨(books.get ⟨src, hs⟩).id,
          some ((books.get ⟨dst, hd⟩).id)⟩ books).1[k]? = books[k]? ∧
      (handleDragEnd ⟨(books.get ⟨src, hs⟩).id,
          some ((books.get ⟨dst, hd⟩).id)⟩ books).2[k]? =
        (books[k]?).map (fun b : Book => (b.id, b.book_order))) ∧
    (∀ k, min src dst ≤ k → k ≤ max src dst →
      ∃ b : Book, (handleDragEnd ⟨(books.get ⟨src, hs⟩).id,
          some ((books.get ⟨dst, hd⟩).id)⟩ books).1[k]? = some b ∧
        (handleDragEnd ⟨(books.get ⟨src, hs⟩).id,
          some ((books.get ⟨dst, hd⟩).id)⟩ books).2[k]? = some (b.id, k) ∧
        b.book_order ≠ k) := by
  rw [handleDragEnd_eq books src dst hs hd hne hnd]
  constructor
  · intro k hk
    have hout : (arrayMove books src dst)[k]? = books[k]? := by
      rw [arrayMove_getElem? books src dst k hs hd,
        if_neg (by omega), if_neg (by omega), if_neg (by omega)]
    refine ⟨hout, ?_⟩
    rw [enum_writes_getElem?, hout]
    by_cases hklen : k < books.length
    · rw [List.getElem?_eq_getElem hklen]
      simp only [Option.map_some']
      rw [hdense k hklen]
    · rw [List.getElem?_eq_none (by omega)]
      rfl
  · intro k hk1 hk2
    have hklen : k < books.length := by omega
    rw [enum_writes_getElem?]
    by_cases hkj : k = dst
    · refine ⟨books[src], ?_, ?_, ?_⟩
      · rw [arrayMove_getElem? books src dst k hs hd, if_pos hkj,
          List.getElem?_eq_getElem hs]
      · rw [arrayMove_getElem? books src dst k hs hd, if_pos hkj,
          List.getElem?_eq_getElem hs]
        rfl
      · rw [hdense src hs]
        omega
    · by_cases hsd : src < dst
      · have hcond : src ≤ k ∧ k < dst := by omega
        have hk1len : k + 1 < books.length := by omega
        refine ⟨books[k + 1], ?_, ?_, ?_⟩
        · rw [arrayMove_getElem? books src dst k hs hd, if_neg hkj,
            if_pos hcond, List.getElem?_eq_getElem hk1len]
        · rw [arrayMove_getElem? books src dst k hs hd, if_neg hkj,
            if_pos hcond, List.getElem?_eq_getElem hk1len]
          rfl
        · rw [hdense (k + 1) hk1len]
          omega
      · have hcond : dst < k ∧ k ≤ src := by omega
        have hk1len : k - 1 < books.length := by omega
        refine ⟨books[k - 1], ?_, ?_, ?_⟩
        · rw [arrayMove_getElem? books src dst k hs hd, if_neg hkj,
            if_neg (by omega), if_pos hcond, List.getElem?_eq_getElem hk1len]
        · rw [arrayMove_getElem? books src dst k hs hd, if_neg hkj,
            if_neg (by omega), if_pos hcond, List.getElem?_eq_getElem hk1len]
          rfl
        · rw [hdense (k - 1) hk1len]
          omega

theorem reorder_frame_witness :
    (handleDragEnd ⟨1, some 2⟩ books3).1[2]? = books3[2]? := by
  have h := reorder_frame_condition books3 0 1 (by decide) (by decide) (by decide)
    (by decide) (by decide)
  exact (h.1 2 (by decide)).1

end Shelf
